import Mathlib

/-!
Shallow embedding of infernyx/database.py: the keyset resolver, the stream
partitioner, the bulk loader, the cloud stager and the denylist reader, with
theorems settling the spec claims about them.  External collaborators (the
SQL engine, the object store, the filesystem, the metadata service) are
modelled by explicit oracles and event traces.
-/

namespace Infernyx

/-- Field values and error payloads are modelled as strings. -/
abbrev Field := String

/-- One serialized output line: the ordered dictionary built by
dict(zip(columns, fields)); JSON dumping of this dictionary is an injective
pure function, so the dictionary itself stands for the serialized line. -/
abbrev Line := List (String × Field)

/-- A keyset definition: key_parts, value_parts, optional column_mappings
(a name can map to a physical name, or to None meaning drop), table name. -/
structure Keyset where
  key_parts : List String
  value_parts : List String
  column_mappings : Option (List (String × Option String))
  table : String
deriving DecidableEq

/-- Python truthiness of a value that is either None or a string:
None and the empty string are falsy. -/
def truthyStr : Option String → Bool
  | none => false
  | some s => !s.isEmpty

/-- Python truthiness of keyset.get(column_mappings, None): None and the
empty dict are falsy. -/
def truthyCM : Option (List (String × Option String)) → Bool
  | none => false
  | some l => !l.isEmpty

/-- The per-name effect of the column_mappings dict in _get_columns: a name
absent from the dict is kept; a name mapped to a truthy string is replaced by
it; a name mapped to None or the empty string is dropped (result none). -/
def applyMapping (cm : List (String × Option String)) (p : String) : Option String :=
  match cm.lookup p with
  | none => some p
  | some m => if truthyStr m then m else none

/-- Model of _get_columns from database.py: when column_mappings is truthy, map every
key part and every value part through the dict (dropping names mapped to a
falsy value), then return key_columns[1:] ++ value_columns; otherwise return
key_parts[1:] ++ value_parts.  Note the mapping is applied to all key parts,
including the partition discriminator, before the leading element is dropped. -/
def _get_columns (k : Keyset) : List String :=
  if truthyCM k.column_mappings then
    let cm := k.column_mappings.getD []
    let key_columns := k.key_parts.filterMap (applyMapping cm)
    let value_columns := k.value_parts.filterMap (applyMapping cm)
    key_columns.drop 1 ++ value_columns
  else
    k.key_parts.drop 1 ++ k.value_parts

/-- The column list as the spec words it: skip the partition discriminator
first, then map each remaining key-part name and each value-part name through
the column mapping (keep unmapped names, substitute truthy mappings, drop
names mapped to an empty or absent value). -/
def specColumns (k : Keyset) : List String :=
  let cm := k.column_mappings.getD []
  (k.key_parts.drop 1).filterMap (applyMapping cm)
    ++ k.value_parts.filterMap (applyMapping cm)

lemma applyMapping_nil (p : String) : applyMapping [] p = some p := rfl

lemma filterMap_applyMapping_nil (l : List String) :
    l.filterMap (applyMapping []) = l := by
  induction l with
  | nil => rfl
  | cons a t ih => simp [List.filterMap_cons, applyMapping_nil, ih]

/-- A keyset whose column mapping maps the partition discriminator itself to
None: key_parts = [p, a], value_parts = [], column_mappings = (p maps to None). -/
def ckex : Keyset := ⟨["p", "a"], [], some [("p", none)], "t"⟩

/-- C3 counterexample: on ckex the code drops the discriminator via the
mapping and then drops the mapped image of the next key part as well,
returning [], while the claimed contract (skip the discriminator, then map
the rest) returns [a].  So the resolver does not satisfy the claim as stated. -/
theorem get_columns_ne_specColumns_cex : _get_columns ckex ≠ specColumns ckex := by
  decide

/-- C3 (amended): whenever the leading key part (the partition discriminator)
is not mapped to an empty or absent value by the column mapping, _get_columns
returns exactly the spec contract: surviving key columns minus the
discriminator, followed by surviving value columns, order preserved, with
absent mapping configuration acting as the identity. -/
theorem get_columns_eq_specColumns (k : Keyset)
    (h : k.key_parts ≠ [] →
      applyMapping (k.column_mappings.getD []) (k.key_parts.headD "") ≠ none) :
    _get_columns k = specColumns k := by
  unfold _get_columns specColumns
  cases htc : truthyCM k.column_mappings with
  | true =>
    simp only [htc, if_true]
    cases hk : k.key_parts with
    | nil => simp
    | cons p rest =>
      have hp := h (by rw [hk]; exact List.cons_ne_nil p rest)
      rw [hk] at hp
      simp only [List.headD_cons] at hp
      cases hm : applyMapping (k.column_mappings.getD []) p with
      | none => exact absurd hm hp
      | some q => simp [List.filterMap_cons, hm]
  | false =>
    have hcm : k.column_mappings.getD [] = [] := by
      cases hc : k.column_mappings with
      | none => rfl
      | some l =>
        cases l with
        | nil => rfl
        | cons a t => simp [truthyCM, hc] at htc
    simp only [htc, Bool.false_eq_true, if_false]
    rw [hcm, filterMap_applyMapping_nil, filterMap_applyMapping_nil]

/-! ## Stream partitioner (_build_datafiles) -/

/-- Python dict membership test on the ordered-association-list model. -/
def hasKey (d : Line) (k : String) : Bool := d.any (fun p => p.1 == k)

/-- Python dict assignment d[k] = v: overwrite in place when the key exists,
append otherwise. -/
def dictInsert (d : Line) (k : String) (v : Field) : Line :=
  if hasKey d k then d.map (fun p => if p.1 == k then (k, v) else p)
  else d ++ [(k, v)]

/-- Building a Python dict from a list of pairs, left to right. -/
def dictFold (d : Line) : List (String × Field) → Line
  | [] => d
  | (k, v) :: rest => dictFold (dictInsert d k v) rest

/-- dict(zip(columns, fields)): zip truncates at the shorter list, then the
pairs are inserted left to right. -/
def dictZip (cols : List String) (fields : List Field) : Line :=
  dictFold [] (cols.zip fields)

/-- A record of the disco result stream: the key tuple is split into its
leading element (the partition key, key[0]) and the rest (key[1:]). -/
structure Record where
  pivot : String
  krest : List Field
  value : List Field
deriving DecidableEq

/-- The DataFile namedtuple: tempfile path, (s3 bucket, s3 key), table name,
comma-joined column list. -/
structure DataFile where
  tempfile : String
  s3 : Option String × Option String
  tablename : String
  columns : String
deriving DecidableEq

/-- Filesystem events emitted by the partitioner: gzip.open, os.chmod,
file close, and a write of one serialized line. -/
inductive FsEvent
  | openF (name : String)
  | chmodF (name : String)
  | closeF (name : String)
  | writeF (name : String) (line : Line)
deriving DecidableEq

/-- tempfile.mktemp with the pivot as name stem under /tmp, modelled deterministically: the
n-th file opened gets a name derived from the pivot and n. -/
def tmpName (pivot : String) (n : Nat) : String :=
  "/tmp/" ++ pivot ++ "." ++ toString n

/-- The loop state of _build_datafiles: the pivot sentinel, the accumulated
DataFile list, the cached column list, the line count, the currently open
file (if any), plus the event trace and the per-file written contents
(closed files in order, then the lines of the open file). -/
structure BuildState where
  pivot : Option String
  datafiles : List DataFile
  columns : List String
  total_lines : Nat
  tmp : Option String
  events : List FsEvent
  closed : List (List Line)
  cur : List Line

def initState : BuildState := ⟨none, [], [], 0, none, [], [], []⟩

/-- The close event of the previously open file, if any (tmp.close()). -/
def closeEvs (s : BuildState) : List FsEvent :=
  match s.tmp with
  | some t => [FsEvent.closeF t]
  | none => []

/-- The closed-file contents after finalizing the open file, if any. -/
def closedAfter (s : BuildState) : List (List Line) :=
  match s.tmp with
  | some _ => s.closed ++ [s.cur]
  | none => s.closed

/-- One iteration of the for-loop of _build_datafiles: on a pivot change
close the open file, open (and chmod) a fresh compressed file, resolve the
columns and append a DataFile; then in all cases serialize
dict(zip(columns, key[1:] + value)) and write it as one line. -/
def buildStep (ks : String → Keyset) (s : BuildState) (r : Record) : BuildState :=
  let s1 :=
    if s.pivot ≠ some r.pivot then
      let kset := ks r.pivot
      let name := tmpName r.pivot s.datafiles.length
      let cols := _get_columns kset
      { pivot := some r.pivot
        datafiles := s.datafiles ++
          [⟨name, (none, none), kset.table, String.intercalate "," cols⟩]
        columns := cols
        total_lines := s.total_lines
        tmp := some name
        events := s.events ++ closeEvs s ++ [FsEvent.openF name, FsEvent.chmodF name]
        closed := closedAfter s
        cur := [] }
    else s
  let line := dictZip s1.columns (r.krest ++ r.value)
  { s1 with
    total_lines := s1.total_lines + 1
    cur := s1.cur ++ [line]
    events := s1.events ++ [FsEvent.writeF (s1.tmp.getD "") line] }

def buildLoop (ks : String → Keyset) : BuildState → List Record → BuildState
  | s, [] => s
  | s, r :: rest => buildLoop ks (buildStep ks s r) rest

/-- After the loop, the last open file (if any) is closed. -/
def buildFinal (ks : String → Keyset) (input : List Record) : BuildState :=
  let s := buildLoop ks initState input
  match s.tmp with
  | some t => { s with events := s.events ++ [FsEvent.closeF t],
                       closed := s.closed ++ [s.cur], tmp := none }
  | none => s

/-- Model of _build_datafiles from database.py: the DataFile list and total_lines. -/
def _build_datafiles (ks : String → Keyset) (input : List Record) :
    List DataFile × Nat :=
  ((buildFinal ks input).datafiles, (buildFinal ks input).total_lines)

/-- Number of maximal contiguous runs of equal partition keys, relative to
the pivot sentinel the loop starts from. -/
def countRuns : Option String → List Record → Nat
  | _, [] => 0
  | p, r :: rest => (if p = some r.pivot then 0 else 1) + countRuns (some r.pivot) rest

/-- Change points counted by comparing each record with its predecessor. -/
def changeAux : Record → List Record → Nat
  | _, [] => 0
  | prev, r :: rest => (if r.pivot = prev.pivot then 0 else 1) + changeAux r rest

/-- Change points of a stream: the first record always starts a run, and a
later record starts one exactly when its partition key differs from the
key of the previous record. -/
def changePoints : List Record → Nat
  | [] => 0
  | r :: rest => 1 + changeAux r rest

lemma buildStep_pivot (ks : String → Keyset) (s : BuildState) (r : Record) :
    (buildStep ks s r).pivot = some r.pivot := by
  by_cases h : s.pivot = some r.pivot <;> simp [buildStep, h]

lemma buildStep_total (ks : String → Keyset) (s : BuildState) (r : Record) :
    (buildStep ks s r).total_lines = s.total_lines + 1 := by
  by_cases h : s.pivot = some r.pivot <;> simp [buildStep, h]

lemma buildStep_datafiles_length (ks : String → Keyset) (s : BuildState) (r : Record) :
    (buildStep ks s r).datafiles.length
      = s.datafiles.length + (if s.pivot = some r.pivot then 0 else 1) := by
  by_cases h : s.pivot = some r.pivot <;> simp [buildStep, h]

lemma buildLoop_total (ks : String → Keyset) (input : List Record) : ∀ s : BuildState,
    (buildLoop ks s input).total_lines = s.total_lines + input.length := by
  induction input with
  | nil => intro s; simp [buildLoop]
  | cons r rest ih =>
    intro s
    rw [buildLoop, ih, buildStep_total]
    simp
    omega

lemma buildLoop_datafiles_length (ks : String → Keyset) (input : List Record) :
    ∀ s : BuildState, (buildLoop ks s input).datafiles.length
      = s.datafiles.length + countRuns s.pivot input := by
  induction input with
  | nil => intro s; simp [buildLoop, countRuns]
  | cons r rest ih =>
    intro s
    rw [buildLoop, ih, buildStep_datafiles_length, buildStep_pivot, countRuns]
    by_cases h : s.pivot = some r.pivot <;> simp [h] <;> omega

lemma countRuns_some_eq_changeAux (l : List Record) : ∀ prev : Record,
    countRuns (some prev.pivot) l = changeAux prev l := by
  induction l with
  | nil => intro prev; rfl
  | cons r rest ih =>
    intro prev
    rw [countRuns, changeAux, ih r]
    congr 1
    simp only [Option.some.injEq]
    by_cases h : r.pivot = prev.pivot
    · simp [h]
    · rw [if_neg h, if_neg (fun hh => h hh.symm)]

lemma countRuns_none_eq_changePoints (l : List Record) :
    countRuns none l = changePoints l := by
  cases l with
  | nil => rfl
  | cons r rest =>
    rw [countRuns, changePoints, countRuns_some_eq_changeAux rest r]
    simp

lemma buildFinal_datafiles (ks : String → Keyset) (input : List Record) :
    (buildFinal ks input).datafiles = (buildLoop ks initState input).datafiles := by
  unfold buildFinal
  cases h : (buildLoop ks initState input).tmp <;> simp [h]

lemma buildFinal_total (ks : String → Keyset) (input : List Record) :
    (buildFinal ks input).total_lines = (buildLoop ks initState input).total_lines := by
  unfold buildFinal
  cases h : (buildLoop ks initState input).tmp <;> simp [h]

/-- C2: the partitioner returns one DataFile per maximal contiguous run of
equal partition keys (first record always starts a run, later records start
one exactly when their key differs from that of the previous record), its count
equals the number of records consumed, and the empty stream yields an empty
DataFile list, a count of zero, and no file events at all. -/
theorem build_datafiles_runs_and_count (ks : String → Keyset) (input : List Record) :
    (_build_datafiles ks input).1.length = changePoints input
    ∧ (_build_datafiles ks input).2 = input.length
    ∧ _build_datafiles ks [] = ([], 0)
    ∧ (buildFinal ks []).events = [] := by
  refine ⟨?_, ?_, rfl, rfl⟩
  · show (buildFinal ks input).datafiles.length = changePoints input
    rw [buildFinal_datafiles, buildLoop_datafiles_length]
    simp [initState, countRuns_none_eq_changePoints]
  · show (buildFinal ks input).total_lines = input.length
    rw [buildFinal_total, buildLoop_total]
    simp [initState]

/-! ## File-event trace properties (open/close discipline) -/

/-- Scans a file-event trace carrying the currently open file: returns none
when the trace is inconsistent (opening while a file is open, closing or
writing a file that is not the open one), and some of the open-file state
when the trace is consistent. -/
def scanTrace : Option String → List FsEvent → Option (Option String)
  | cur, [] => some cur
  | none, FsEvent.openF n :: es => scanTrace (some n) es
  | some _, FsEvent.openF _ :: _ => none
  | some c, FsEvent.closeF n :: es => if c = n then scanTrace none es else none
  | none, FsEvent.closeF _ :: _ => none
  | cur, FsEvent.chmodF _ :: es => scanTrace cur es
  | some c, FsEvent.writeF n _ :: es => if c = n then scanTrace (some c) es else none
  | none, FsEvent.writeF _ _ :: _ => none

/-- Number of file-open events in a trace. -/
def countOpens : List FsEvent → Nat
  | [] => 0
  | FsEvent.openF _ :: es => 1 + countOpens es
  | _ :: es => countOpens es

lemma scanTrace_append (xs ys : List FsEvent) : ∀ c : Option String,
    scanTrace c (xs ++ ys) = (scanTrace c xs).bind (fun c2 => scanTrace c2 ys) := by
  induction xs with
  | nil => intro c; simp [scanTrace]
  | cons e rest ih =>
    intro c
    cases e with
    | openF n => cases c <;> simp [scanTrace, ih]
    | chmodF n => cases c <;> simp [scanTrace, ih]
    | closeF n =>
      cases c with
      | none => simp [scanTrace]
      | some c0 => by_cases h : c0 = n <;> simp [scanTrace, h, ih]
    | writeF n l =>
      cases c with
      | none => simp [scanTrace]
      | some c0 => by_cases h : c0 = n <;> simp [scanTrace, h, ih]

lemma countOpens_append (xs ys : List FsEvent) :
    countOpens (xs ++ ys) = countOpens xs + countOpens ys := by
  induction xs with
  | nil => simp [countOpens]
  | cons e rest ih =>
    cases e <;> (simp [countOpens, ih]; try omega)

/-- Canonical form of a step when the partition key equals the sentinel. -/
lemma buildStep_eq_of_pivot_eq (ks : String → Keyset) (s : BuildState) (r : Record)
    (h : s.pivot = some r.pivot) :
    buildStep ks s r = { s with
      total_lines := s.total_lines + 1,
      cur := s.cur ++ [dictZip s.columns (r.krest ++ r.value)],
      events := s.events ++
        [FsEvent.writeF (s.tmp.getD "") (dictZip s.columns (r.krest ++ r.value))] } := by
  simp [buildStep, h]

/-- Canonical form of a step when the partition key differs from the
sentinel. -/
lemma buildStep_eq_of_pivot_ne (ks : String → Keyset) (s : BuildState) (r : Record)
    (h : ¬ s.pivot = some r.pivot) :
    buildStep ks s r =
      { pivot := some r.pivot
        datafiles := s.datafiles ++ [⟨tmpName r.pivot s.datafiles.length, (none, none),
          (ks r.pivot).table, String.intercalate "," (_get_columns (ks r.pivot))⟩]
        columns := _get_columns (ks r.pivot)
        total_lines := s.total_lines + 1
        tmp := some (tmpName r.pivot s.datafiles.length)
        events := s.events ++ closeEvs s ++
          [FsEvent.openF (tmpName r.pivot s.datafiles.length),
           FsEvent.chmodF (tmpName r.pivot s.datafiles.length),
           FsEvent.writeF (tmpName r.pivot s.datafiles.length)
             (dictZip (_get_columns (ks r.pivot)) (r.krest ++ r.value))]
        closed := closedAfter s
        cur := [dictZip (_get_columns (ks r.pivot)) (r.krest ++ r.value)] } := by
  simp [buildStep, h]

lemma countOpens_closeEvs (s : BuildState) : countOpens (closeEvs s) = 0 := by
  cases h : s.tmp <;> simp [closeEvs, h, countOpens]

lemma countOpens_step (ks : String → Keyset) (s : BuildState) (r : Record) :
    countOpens (buildStep ks s r).events
      = countOpens s.events + (if s.pivot = some r.pivot then 0 else 1) := by
  by_cases h : s.pivot = some r.pivot
  · rw [buildStep_eq_of_pivot_eq ks s r h]
    simp [h, countOpens_append, countOpens]
  · rw [buildStep_eq_of_pivot_ne ks s r h]
    simp [h, countOpens_append, countOpens, countOpens_closeEvs]

lemma countOpens_loop (ks : String → Keyset) (input : List Record) : ∀ s : BuildState,
    countOpens (buildLoop ks s input).events = countOpens s.events + countRuns s.pivot input := by
  induction input with
  | nil => intro s; simp [buildLoop, countRuns]
  | cons r rest ih =>
    intro s
    rw [buildLoop, ih, countOpens_step, buildStep_pivot, countRuns]
    by_cases h : s.pivot = some r.pivot
    · simp [h]
    · simp only [h, if_neg h]
      omega

lemma scanTrace_step (ks : String → Keyset) (s : BuildState) (r : Record)
    (h1 : s.tmp.isSome = s.pivot.isSome)
    (hs : scanTrace none s.events = some s.tmp) :
    scanTrace none (buildStep ks s r).events = some (buildStep ks s r).tmp := by
  by_cases h : s.pivot = some r.pivot
  · rw [buildStep_eq_of_pivot_eq ks s r h]
    have htmp : ∃ t, s.tmp = some t := by
      cases ht : s.tmp with
      | none => rw [ht, h] at h1; simp at h1
      | some t => exact ⟨t, rfl⟩
    obtain ⟨t, ht⟩ := htmp
    simp [scanTrace_append, hs, ht, scanTrace]
  · rw [buildStep_eq_of_pivot_ne ks s r h]
    cases ht : s.tmp with
    | none => simp [scanTrace_append, hs, ht, closeEvs, scanTrace]
    | some t => simp [scanTrace_append, hs, ht, closeEvs, scanTrace]

lemma tmp_pivot_step (ks : String → Keyset) (s : BuildState) (r : Record)
    (h1 : s.tmp.isSome = s.pivot.isSome) :
    (buildStep ks s r).tmp.isSome = (buildStep ks s r).pivot.isSome := by
  by_cases h : s.pivot = some r.pivot
  · rw [buildStep_eq_of_pivot_eq ks s r h]; exact h1
  · rw [buildStep_eq_of_pivot_ne ks s r h]; rfl

lemma scanTrace_loop (ks : String → Keyset) (input : List Record) : ∀ s : BuildState,
    s.tmp.isSome = s.pivot.isSome →
    scanTrace none s.events = some s.tmp →
    scanTrace none (buildLoop ks s input).events = some (buildLoop ks s input).tmp
    ∧ (buildLoop ks s input).tmp.isSome = (buildLoop ks s input).pivot.isSome := by
  induction input with
  | nil => intro s h1 hs; exact ⟨hs, h1⟩
  | cons r rest ih =>
    intro s h1 hs
    rw [buildLoop]
    exact ih (buildStep ks s r) (tmp_pivot_step ks s r h1) (scanTrace_step ks s r h1 hs)

/-- C4: over the whole run of the partitioner (final close included) the file
trace is consistent: a new file is only ever opened when no file is open, so
the previously open file is always closed first, every write goes to the open
file, and the last file is closed at the end (the scan ends with no open
file).  The number of open events equals the number of partition-key change
points (first record, plus each record whose key differs from its
predecessor), and every single step opens a file exactly when the partition key of the record
partition key differs from the loop sentinel, which holds the previous
differs from the loop sentinel value. -/
lemma buildFinal_events (ks : String → Keyset) (input : List Record) :
    (buildFinal ks input).events
      = (buildLoop ks initState input).events ++ closeEvs (buildLoop ks initState input) := by
  unfold buildFinal closeEvs
  cases h : (buildLoop ks initState input).tmp <;> simp [h]

theorem partitioner_open_close_discipline (ks : String → Keyset) (input : List Record) :
    scanTrace none (buildFinal ks input).events = some none
    ∧ countOpens (buildFinal ks input).events = changePoints input
    ∧ ∀ s : BuildState, ∀ r : Record,
        countOpens (buildStep ks s r).events
          = countOpens s.events + (if s.pivot = some r.pivot then 0 else 1) := by
  have hloop := scanTrace_loop ks input initState rfl rfl
  refine ⟨?_, ?_, fun s r => countOpens_step ks s r⟩
  · rw [buildFinal_events, scanTrace_append, hloop.1]
    cases h : (buildLoop ks initState input).tmp with
    | none => simp [h, closeEvs, scanTrace]
    | some t => simp [h, closeEvs, scanTrace]
  · rw [buildFinal_events, countOpens_append, countOpens_loop,
      countOpens_closeEvs]
    simp [initState, countRuns_none_eq_changePoints, countOpens]

/-! ## Content purity of the partitioner -/

/-- The serialized line of one record: a pure function of the resolved
column list of the keyset of the record and the field values of the record
(key[1:] ++ value), with no other inputs. -/
def lineOf (ks : String → Keyset) (r : Record) : Line :=
  dictZip (_get_columns (ks r.pivot)) (r.krest ++ r.value)

/-- Specification of the per-file contents produced from a stream, written
without any file or loop state: carries only the current partition key and
the lines of the current group, and serializes each record by the pure
function lineOf. -/
def contentsSpec (ks : String → Keyset) :
    Option String → List Line → List Record → List (List Line)
  | none, _, [] => []
  | some _, cur, [] => [cur]
  | p, cur, r :: rest =>
    if p = some r.pivot then contentsSpec ks p (cur ++ [lineOf ks r]) rest
    else (match p with | none => [] | some _ => [cur])
      ++ contentsSpec ks (some r.pivot) [lineOf ks r] rest

lemma closedAfter_eq (s : BuildState) (h1 : s.tmp.isSome = s.pivot.isSome) :
    closedAfter s
      = s.closed ++ (match s.pivot with | none => [] | some _ => [s.cur]) := by
  cases ht : s.tmp with
  | none =>
    cases hp : s.pivot with
    | none => simp [closedAfter, ht]
    | some a => rw [ht, hp] at h1; simp at h1
  | some t =>
    cases hp : s.pivot with
    | none => rw [ht, hp] at h1; simp at h1
    | some a => simp [closedAfter, ht, hp]

lemma columns_step (ks : String → Keyset) (s : BuildState) (r : Record)
    (h2 : ∀ p, s.pivot = some p → s.columns = _get_columns (ks p)) :
    ∀ p, (buildStep ks s r).pivot = some p →
      (buildStep ks s r).columns = _get_columns (ks p) := by
  intro p hp
  rw [buildStep_pivot] at hp
  cases hp
  by_cases h : s.pivot = some r.pivot
  · rw [buildStep_eq_of_pivot_eq ks s r h]
    exact h2 r.pivot h
  · rw [buildStep_eq_of_pivot_ne ks s r h]

lemma loop_contents (ks : String → Keyset) (input : List Record) : ∀ s : BuildState,
    s.tmp.isSome = s.pivot.isSome →
    (∀ p, s.pivot = some p → s.columns = _get_columns (ks p)) →
    closedAfter (buildLoop ks s input) = s.closed ++ contentsSpec ks s.pivot s.cur input := by
  induction input with
  | nil =>
    intro s h1 h2
    rw [buildLoop, closedAfter_eq s h1]
    cases hp : s.pivot <;> simp [contentsSpec]
  | cons r rest ih =>
    intro s h1 h2
    rw [buildLoop]
    by_cases h : s.pivot = some r.pivot
    · have hrec := ih (buildStep ks s r) (tmp_pivot_step ks s r h1) (columns_step ks s r h2)
      rw [hrec, buildStep_eq_of_pivot_eq ks s r h, h]
      simp [contentsSpec, lineOf, h2 r.pivot h]
    · have hrec := ih (buildStep ks s r) (tmp_pivot_step ks s r h1) (columns_step ks s r h2)
      rw [hrec, buildStep_eq_of_pivot_ne ks s r h, closedAfter_eq s h1]
      cases hp : s.pivot with
      | none => simp [contentsSpec, lineOf, hp]
      | some a =>
        rw [hp] at h
        simp [contentsSpec, lineOf, hp, h]

lemma buildFinal_closed (ks : String → Keyset) (input : List Record) :
    (buildFinal ks input).closed = closedAfter (buildLoop ks initState input) := by
  unfold buildFinal closedAfter
  cases h : (buildLoop ks initState input).tmp <;> simp [h]

/-- C8: the per-file contents produced by the partitioner equal a pure
specification function of the input stream alone, in which every written
line is lineOf — a pure function of the resolved column list of the keyset
of the record and of its field values.  Since the contents are a function of
(keysets, input) only, re-running the partitioner on the same input produces
batch files with identical serialized content, file names aside. -/
theorem partitioner_contents_pure (ks : String → Keyset) (input : List Record) :
    (buildFinal ks input).closed = contentsSpec ks none [] input := by
  rw [buildFinal_closed,
    loop_contents ks input initState rfl (fun p hp => Option.noConfusion hp)]
  simp [initState]

/-! ## Arity-mismatch behaviour of dict(zip(columns, fields)) -/

lemma zip_map_fst (cols : List String) : ∀ fields : List Field,
    (cols.zip fields).map Prod.fst = cols.take fields.length := by
  induction cols with
  | nil => intro fields; simp
  | cons c cs ih =>
    intro fields
    cases fields with
    | nil => simp
    | cons f fs => simp [ih fs]

lemma zip_map_snd (cols : List String) : ∀ fields : List Field,
    (cols.zip fields).map Prod.snd = fields.take cols.length := by
  induction cols with
  | nil => intro fields; cases fields <;> simp
  | cons c cs ih =>
    intro fields
    cases fields with
    | nil => simp
    | cons f fs => simp [ih fs]

lemma hasKey_append (d1 d2 : Line) (k : String) :
    hasKey (d1 ++ d2) k = (hasKey d1 k || hasKey d2 k) := by
  simp [hasKey, List.any_append]

lemma dictFold_no_overlap (pairs : List (String × Field)) : ∀ d : Line,
    (pairs.map Prod.fst).Nodup →
    (∀ k, k ∈ pairs.map Prod.fst → hasKey d k = false) →
    dictFold d pairs = d ++ pairs := by
  induction pairs with
  | nil => intro d _ _; simp [dictFold]
  | cons kv rest ih =>
    obtain ⟨k, v⟩ := kv
    intro d hnd hd
    have hk : hasKey d k = false := hd k (by simp)
    have hknotin : k ∉ rest.map Prod.fst := by
      rw [List.map_cons] at hnd
      exact (List.nodup_cons.mp hnd).1
    rw [dictFold, dictInsert, if_neg (by simp [hk])]
    rw [ih (d ++ [(k, v)]) (by simpa using hnd.of_cons)]
    · simp
    · intro k2 hk2
      have hne : k ≠ k2 := by
        intro he
        exact hknotin (by rw [he]; exact hk2)
      have hd2 : hasKey d k2 = false := hd k2 (by simp [hk2])
      rw [hasKey_append, hd2]
      simp [hasKey, hne]

lemma dictZip_nodup (cols : List String) (fields : List Field) (h : cols.Nodup) :
    dictZip cols fields = cols.zip fields := by
  unfold dictZip
  rw [dictFold_no_overlap]
  · simp
  · rw [zip_map_fst]
    exact (List.take_sublist fields.length cols).nodup h
  · intro k _
    simp [hasKey]

/-- C9: a record whose combined field tuple has a different arity than the
resolved column list raises no error: dict(zip(columns, fields)) silently
truncates, so with duplicate-free columns the serialized keys are exactly
the first min(columns, fields) columns (excess fields dropped, missing
trailing columns absent) and the values are the first min of the fields;
and the record is still written and counted, the total count being the
number of records regardless of arities. -/
theorem partitioner_arity_mismatch_tolerated (cols : List String) (h : cols.Nodup)
    (fields : List Field) (ks : String → Keyset) (input : List Record) :
    (dictZip cols fields).map Prod.fst = cols.take fields.length
    ∧ (dictZip cols fields).map Prod.snd = fields.take cols.length
    ∧ (_build_datafiles ks input).2 = input.length := by
  refine ⟨?_, ?_, ?_⟩
  · rw [dictZip_nodup cols fields h, zip_map_fst]
  · rw [dictZip_nodup cols fields h, zip_map_snd]
  · show (buildFinal ks input).total_lines = input.length
    rw [buildFinal_total, buildLoop_total]
    simp [initState]

/-- A keyset used when a concrete keyset registry is needed. -/
def ksW : Keyset := ⟨["k", "a"], ["v"], none, "tw"⟩

/-- Witness for C9 at a concrete mismatched arity: two columns, one field. -/
theorem partitioner_arity_mismatch_tolerated_witness :
    (["a", "b"] : List String).Nodup
    ∧ ((dictZip ["a", "b"] ["x"]).map Prod.fst
          = (["a", "b"] : List String).take (["x"] : List Field).length
      ∧ (dictZip ["a", "b"] ["x"]).map Prod.snd
          = (["x"] : List Field).take (["a", "b"] : List String).length
      ∧ (_build_datafiles (fun _ => ksW) []).2 = ([] : List Record).length) :=
  ⟨by decide, partitioner_arity_mismatch_tolerated ["a", "b"] (by decide) ["x"]
    (fun _ => ksW) []⟩

/-- A keyset with a harmless column mapping, used as witness input for the
amended C3. -/
def kW : Keyset := ⟨["p", "a"], ["v"], some [("a", some "b")], "t2"⟩

/-- Witness for the amended C3 at a concrete keyset whose discriminator is
not mapped away: the resolver output matches the spec contract. -/
theorem get_columns_eq_specColumns_witness :
    (kW.key_parts ≠ [] →
      applyMapping (kW.column_mappings.getD []) (kW.key_parts.headD "") ≠ none)
    ∧ _get_columns kW = specColumns kW :=
  ⟨by decide, get_columns_eq_specColumns kW (by decide)⟩

/-! ## Bulk loader (_insert_datafiles) -/

/-- The parameters object as seen by the loader: getattr(params,
clean_db_files, True), an attribute that may be absent. -/
structure InsParams where
  clean_db_files : Option Bool
deriving DecidableEq

/-- getattr(params, clean_db_files, True): absence of the attribute means
the local files are deleted. -/
def getattrClean (p : InsParams) : Bool := p.clean_db_files.getD true

/-- Events of the loader: statement execution, transaction verbs, resource
closing, and the per-file unlink attempts of the finally block. -/
inductive DbEvent
  | execute (cmd : String)
  | rollback
  | commit
  | closeCursor
  | closeConn
  | unlinked (f : String)
  | unlinkFailed (f : String)
deriving DecidableEq

/-- A single-quote character, used in the COPY statement text. -/
def quoteCh : String := (Char.ofNat 39).toString

/-- The source clause of the COPY statement: the s3 url when both bucket and
key are truthy, the local temp file path otherwise. -/
def fleOf (df : DataFile) : String :=
  if truthyStr df.s3.1 && truthyStr df.s3.2 then
    "s3://" ++ df.s3.1.getD "" ++ "/" ++ df.s3.2.getD ""
  else df.tempfile

/-- The COPY statement rendered exactly as the Python format string does. -/
def copyQuery (tablename columns fle extras : String) : String :=
  "COPY " ++ tablename ++ " (" ++ columns ++ ") FROM " ++ quoteCh ++ fle ++ quoteCh
    ++ " WITH " ++ extras ++ " JSON " ++ quoteCh ++ "auto" ++ quoteCh
    ++ " TRUNCATECOLUMNS GZIP"

/-- The effect of executing every COPY statement of the list, in order,
appending the rows of each source to its destination table. -/
def applyCopies (src : String → List Line) :
    (String → List Line) → List DataFile → (String → List Line)
  | db, [] => db
  | db, df :: rest =>
    applyCopies src (fun t => if t = df.tablename then db t ++ src (fleOf df) else db t) rest

/-- The try-block of _insert_datafiles: execute the statements in order
against the pending transaction state; the oracle fails decides which
statement index (if any) raises.  Returns the Except outcome of the loop
and the trace of executed statements. -/
def execLoop (fails : Nat → Option String) (src : String → List Line) (extras : String) :
    Nat → (String → List Line) → List DataFile →
      Except String (String → List Line) × List DbEvent
  | _, pending, [] => (Except.ok pending, [])
  | i, pending, df :: rest =>
    let cmd := copyQuery df.tablename df.columns (fleOf df) extras
    match fails i with
    | some e => (Except.error e, [DbEvent.execute cmd])
    | none =>
      let next := execLoop fails src extras (i + 1)
        (fun t => if t = df.tablename then pending t ++ src (fleOf df) else pending t) rest
      (next.1, DbEvent.execute cmd :: next.2)

/-- The finally-block loop over datafiles: each unlink attempt is guarded by
the clean_db_files flag and individually wrapped in try/except, so a failing
unlink (oracle u) is logged (an unlinkFailed event) and the loop continues.
Returns the events and the list of files actually removed. -/
def cleanupFiles (params : InsParams) (u : String → Bool) :
    List DataFile → List DbEvent × List String
  | [] => ([], [])
  | df :: rest =>
    let next := cleanupFiles params u rest
    if getattrClean params then
      if u df.tempfile then (DbEvent.unlinkFailed df.tempfile :: next.1, next.2)
      else (DbEvent.unlinked df.tempfile :: next.1, df.tempfile :: next.2)
    else next

/-- Result of one loader invocation: the Except outcome (normal return or
re-raised statement error), the committed database state, the event trace,
and the local files removed by the finally block. -/
structure InsResult where
  outcome : Except String Unit
  db : String → List Line
  events : List DbEvent
  removed : List String

/-- Model of _insert_datafiles from database.py: run every COPY in one transaction;
on any statement error roll back (the committed state stays the initial one)
and re-raise; otherwise commit the pending state.  In both cases the finally
block closes the cursor and the connection and then attempts the unlinks. -/
def _insert_datafiles (fails : Nat → Option String) (src : String → List Line)
    (db : String → List Line) (datafiles : List DataFile) (params : InsParams)
    (u : String → Bool) (extras : String) : InsResult :=
  let ex := execLoop fails src extras 0 db datafiles
  let fin := cleanupFiles params u datafiles
  match ex.1 with
  | Except.error e =>
    { outcome := Except.error e, db := db,
      events := ex.2 ++ [DbEvent.rollback, DbEvent.closeCursor, DbEvent.closeConn] ++ fin.1,
      removed := fin.2 }
  | Except.ok pending =>
    { outcome := Except.ok (), db := pending,
      events := ex.2 ++ [DbEvent.commit, DbEvent.closeCursor, DbEvent.closeConn] ++ fin.1,
      removed := fin.2 }

lemma execLoop_ok (fails : Nat → Option String) (src : String → List Line)
    (extras : String) (dfs : List DataFile) :
    ∀ (i : Nat) (pending q : String → List Line),
    (execLoop fails src extras i pending dfs).1 = Except.ok q →
    q = applyCopies src pending dfs := by
  induction dfs with
  | nil =>
    intro i pending q h
    simp [execLoop] at h
    simp [applyCopies, h]
  | cons df rest ih =>
    intro i pending q h
    cases hf : fails i with
    | some e => simp [execLoop, hf] at h
    | none =>
      simp only [execLoop, hf] at h
      exact ih (i + 1) _ q h

lemma execLoop_error (fails : Nat → Option String) (src : String → List Line)
    (extras : String) (dfs : List DataFile) :
    ∀ (i : Nat) (pending : String → List Line) (e : String),
    (execLoop fails src extras i pending dfs).1 = Except.error e →
    ∃ n, i ≤ n ∧ n < i + dfs.length ∧ fails n = some e
      ∧ ∀ m, i ≤ m → m < n → fails m = none := by
  induction dfs with
  | nil => intro i pending e h; simp [execLoop] at h
  | cons df rest ih =>
    intro i pending e h
    cases hf : fails i with
    | some e2 =>
      simp only [execLoop, hf] at h
      have he : e2 = e := by simpa using h
      refine ⟨i, le_refl i, by simp, by rw [hf, he], fun m h1 h2 => absurd h1 (by omega)⟩
    | none =>
      simp only [execLoop, hf] at h
      obtain ⟨n, hn1, hn2, hn3, hn4⟩ := ih (i + 1) _ e h
      refine ⟨n, by omega, by simp only [List.length_cons]; omega, hn3, ?_⟩
      intro m hm1 hm2
      by_cases hmi : m = i
      · rw [hmi]; exact hf
      · exact hn4 m (by omega) hm2

/-- C1: for every failure oracle, source contents, initial database state and
batch-file list, if the loader raises an error then the error is the one
raised by the first failing statement (re-raised unchanged) and the committed
database state is exactly the initial one — no insert of this job survives;
and if the loader returns normally, the committed state carries all the
statements of the job.  The committed state is therefore never a proper
subset of the job. -/
theorem bulk_loader_atomicity (fails : Nat → Option String) (src : String → List Line)
    (db : String → List Line) (datafiles : List DataFile) (params : InsParams)
    (u : String → Bool) (extras : String) :
    (∀ e, (_insert_datafiles fails src db datafiles params u extras).outcome = Except.error e →
      (_insert_datafiles fails src db datafiles params u extras).db = db
      ∧ ∃ n, n < datafiles.length ∧ fails n = some e ∧ ∀ m, m < n → fails m = none)
    ∧ ((_insert_datafiles fails src db datafiles params u extras).outcome = Except.ok () →
      (_insert_datafiles fails src db datafiles params u extras).db
        = applyCopies src db datafiles) := by
  cases hex : (execLoop fails src extras 0 db datafiles).1 with
  | error e0 =>
    constructor
    · intro e he
      simp only [_insert_datafiles, hex] at he ⊢
      have he0 : e0 = e := by simpa using he
      subst he0
      refine ⟨by simp, ?_⟩
      obtain ⟨n, _, hn2, hn3, hn4⟩ := execLoop_error fails src extras datafiles 0 db e0 hex
      exact ⟨n, by omega, hn3, fun m hm => hn4 m (Nat.zero_le m) hm⟩
    · intro he
      simp [_insert_datafiles, hex] at he
  | ok q =>
    constructor
    · intro e he
      simp [_insert_datafiles, hex] at he
    · intro _
      simp only [_insert_datafiles, hex]
      exact execLoop_ok fails src extras datafiles 0 db q hex

/-- Concrete loader inputs for witnesses. -/
def dfW : DataFile := ⟨"/tmp/t1.0", (none, none), "orders", "a,b"⟩

def dbW : String → List Line := fun _ => []

def failsW : Nat → Option String := fun _ => some "boom"

/-- Witness for C1: with a single batch file whose statement fails, the
loader raises boom, leaves the database untouched, and the failing index
exists. -/
theorem bulk_loader_atomicity_witness :
    ((_insert_datafiles failsW dbW dbW [dfW] ⟨none⟩ (fun _ => false) "").outcome
        = Except.error "boom")
    ∧ ((_insert_datafiles failsW dbW dbW [dfW] ⟨none⟩ (fun _ => false) "").db = dbW
      ∧ ∃ n, n < [dfW].length ∧ failsW n = some "boom"
        ∧ ∀ m, m < n → failsW m = none) :=
  ⟨rfl, (bulk_loader_atomicity failsW dbW dbW [dfW] ⟨none⟩ (fun _ => false) "").1 "boom" rfl⟩

lemma cleanupFiles_removed_mem (params : InsParams) (u : String → Bool)
    (dfs : List DataFile) (df : DataFile) (hc : getattrClean params = true)
    (hdf : df ∈ dfs) (hu : u df.tempfile = false) :
    df.tempfile ∈ (cleanupFiles params u dfs).2 := by
  induction dfs with
  | nil => cases hdf
  | cons d rest ih =>
    cases hdf with
    | head => simp [cleanupFiles, hc, hu]
    | tail _ hmem =>
      have hr := ih hmem
      by_cases hud : u d.tempfile = true <;> simp [cleanupFiles, hc, hud, hr]

lemma cleanupFiles_failed_mem (params : InsParams) (u : String → Bool)
    (dfs : List DataFile) (df : DataFile) (hc : getattrClean params = true)
    (hdf : df ∈ dfs) (hu : u df.tempfile = true) :
    DbEvent.unlinkFailed df.tempfile ∈ (cleanupFiles params u dfs).1 := by
  induction dfs with
  | nil => cases hdf
  | cons d rest ih =>
    cases hdf with
    | head => simp [cleanupFiles, hc, hu]
    | tail _ hmem =>
      have hr := ih hmem
      by_cases hud : u d.tempfile = true <;> simp [cleanupFiles, hc, hud, hr]

lemma insert_datafiles_events (fails : Nat → Option String) (src : String → List Line)
    (db : String → List Line) (datafiles : List DataFile) (params : InsParams)
    (u : String → Bool) (extras : String) :
    ∃ pre : List DbEvent,
      (_insert_datafiles fails src db datafiles params u extras).events
        = pre ++ [DbEvent.closeCursor, DbEvent.closeConn]
            ++ (cleanupFiles params u datafiles).1 := by
  cases hex : (execLoop fails src extras 0 db datafiles).1 with
  | error e =>
    refine ⟨(execLoop fails src extras 0 db datafiles).2 ++ [DbEvent.rollback], ?_⟩
    simp [_insert_datafiles, hex]
  | ok q =>
    refine ⟨(execLoop fails src extras 0 db datafiles).2 ++ [DbEvent.commit], ?_⟩
    simp [_insert_datafiles, hex]

lemma insert_datafiles_removed (fails : Nat → Option String) (src : String → List Line)
    (db : String → List Line) (datafiles : List DataFile) (params : InsParams)
    (u : String → Bool) (extras : String) :
    (_insert_datafiles fails src db datafiles params u extras).removed
      = (cleanupFiles params u datafiles).2 := by
  cases hex : (execLoop fails src extras 0 db datafiles).1 with
  | error e => simp [_insert_datafiles, hex]
  | ok q => simp [_insert_datafiles, hex]

/-- C5: whether the transaction commits or rolls back, the loader closes the
cursor and connection and only then walks the batch files: every local file
is unlink-attempted exactly when the clean_db_files flag is true, with the
absent flag meaning true (delete); a file whose unlink succeeds is removed,
a file whose unlink fails yields a logged unlinkFailed event and nothing is
raised — the primary outcome of the load is the same for every
unlink-failure oracle. -/
theorem bulk_loader_cleanup (fails : Nat → Option String) (src : String → List Line)
    (db : String → List Line) (datafiles : List DataFile) (params : InsParams)
    (u : String → Bool) (extras : String) :
    (∃ pre : List DbEvent,
      (_insert_datafiles fails src db datafiles params u extras).events
        = pre ++ [DbEvent.closeCursor, DbEvent.closeConn]
            ++ (cleanupFiles params u datafiles).1)
    ∧ (∀ p : InsParams, p.clean_db_files = none → getattrClean p = true)
    ∧ (getattrClean params = true → ∀ df, df ∈ datafiles → u df.tempfile = false →
        df.tempfile ∈ (_insert_datafiles fails src db datafiles params u extras).removed)
    ∧ (getattrClean params = true → ∀ df, df ∈ datafiles → u df.tempfile = true →
        DbEvent.unlinkFailed df.tempfile
          ∈ (_insert_datafiles fails src db datafiles params u extras).events)
    ∧ (getattrClean params = false →
        (cleanupFiles params u datafiles).1 = [] ∧ (cleanupFiles params u datafiles).2 = [])
    ∧ (∀ u2 : String → Bool,
        (_insert_datafiles fails src db datafiles params u2 extras).outcome
          = (_insert_datafiles fails src db datafiles params u extras).outcome) := by
  refine ⟨insert_datafiles_events fails src db datafiles params u extras,
    fun p hp => by simp [getattrClean, hp], ?_, ?_, ?_, ?_⟩
  · intro hc df hdf hu
    rw [insert_datafiles_removed]
    exact cleanupFiles_removed_mem params u datafiles df hc hdf hu
  · intro hc df hdf hu
    obtain ⟨pre, hpre⟩ := insert_datafiles_events fails src db datafiles params u extras
    rw [hpre]
    have := cleanupFiles_failed_mem params u datafiles df hc hdf hu
    simp [this]
  · intro hc
    induction datafiles with
    | nil => simp [cleanupFiles]
    | cons d rest ih => simp [cleanupFiles, hc, ih]
  · intro u2
    cases hex : (execLoop fails src extras 0 db datafiles).1 with
    | error e => simp [_insert_datafiles, hex]
    | ok q => simp [_insert_datafiles, hex]

/-- Witness for C5 at concrete inputs: with the flag absent and an unlink
oracle that fails on the file, the loader logs the failure (the unlinkFailed
event is in the trace), and changing the unlink oracle leaves the outcome
unchanged. -/
theorem bulk_loader_cleanup_witness :
    (DbEvent.unlinkFailed dfW.tempfile
      ∈ (_insert_datafiles failsW dbW dbW [dfW] ⟨none⟩ (fun _ => true) "").events)
    ∧ ((_insert_datafiles failsW dbW dbW [dfW] ⟨none⟩ (fun _ => false) "").outcome
      = (_insert_datafiles failsW dbW dbW [dfW] ⟨none⟩ (fun _ => true) "").outcome) :=
  ⟨(bulk_loader_cleanup failsW dbW dbW [dfW] ⟨none⟩ (fun _ => true) "").2.2.2.1 rfl dfW
      (by simp) rfl,
    (bulk_loader_cleanup failsW dbW dbW [dfW] ⟨none⟩ (fun _ => true) "").2.2.2.2.2
      (fun _ => false)⟩

/-! ## Cloud stager (_upload_s3) and the staged pipeline (insert_redshift) -/

/-- The loop of _upload_s3: per file, compute the md5 of the local file and
upload under key job_id-tempfile; the oracle upFail decides which file index
(if any) makes the checksum/upload raise, aborting the whole step.  On
success the returned DataFile keeps tempfile, tablename and columns and
carries (bucket_name, key) as its remote reference. -/
def uploadLoop (upFail : Nat → Option String) (job_id bucket_name : String) :
    Nat → List DataFile → Except String (List DataFile)
  | _, [] => Except.ok []
  | i, df :: rest =>
    match upFail i with
    | some e => Except.error e
    | none =>
      match uploadLoop upFail job_id bucket_name (i + 1) rest with
      | Except.error e => Except.error e
      | Except.ok r =>
        Except.ok (⟨df.tempfile, (some bucket_name, some (job_id ++ "-" ++ df.tempfile)),
          df.tablename, df.columns⟩ :: r)

/-- Model of _upload_s3 from database.py. -/
def _upload_s3 (upFail : Nat → Option String) (datafiles : List DataFile)
    (job_id bucket_name : String) : Except String (List DataFile) :=
  uploadLoop upFail job_id bucket_name 0 datafiles

lemma uploadLoop_no_fail (job_id bucket_name : String) (dfs : List DataFile) :
    ∀ i : Nat, uploadLoop (fun _ => none) job_id bucket_name i dfs
      = Except.ok (dfs.map fun df =>
          ⟨df.tempfile, (some bucket_name, some (job_id ++ "-" ++ df.tempfile)),
            df.tablename, df.columns⟩) := by
  induction dfs with
  | nil => intro i; rfl
  | cons df rest ih => intro i; simp [uploadLoop, ih (i + 1)]

/-- C7: when every upload succeeds, the stager returns the list of the same
length and order in which the i-th output keeps the i-th input tempfile,
tablename and columns, and only the remote reference changes, becoming
(bucket, job_id-tempfile). -/
theorem cloud_stager_frame (datafiles : List DataFile) (job_id bucket_name : String) :
    _upload_s3 (fun _ => none) datafiles job_id bucket_name
      = Except.ok (datafiles.map fun df =>
          ⟨df.tempfile, (some bucket_name, some (job_id ++ "-" ++ df.tempfile)),
            df.tablename, df.columns⟩) :=
  uploadLoop_no_fail job_id bucket_name datafiles 0

/-- Model of _get_sts_credentials from database.py, against an instance-metadata
oracle delivering (access key, secret key, token) or failing. -/
def _get_sts_credentials (metadata : Except String (String × String × String)) :
    Except String String :=
  match metadata with
  | Except.error e => Except.error e
  | Except.ok m =>
    Except.ok ("credentials " ++ quoteCh ++ "aws_access_key_id=" ++ m.1
      ++ ";aws_secret_access_key=" ++ m.2.1 ++ ";token=" ++ m.2.2 ++ quoteCh)

/-- Result of one whole staged job: the outcome (total line count or the
propagated error), the committed database state, the local temp files still
on disk after the call, and the loader events. -/
structure JobResult where
  outcome : Except String Nat
  db : String → List Line
  files : List String
  events : List DbEvent

/-- insert_redshift from database.py: partition, upload to s3, obtain
temporary credentials, then bulk-load.  An error raised by the upload or by
the credential lookup propagates immediately: the loader never runs, so none
of the local temp files written by the partitioner is deleted. -/
def insert_redshift (ks : String → Keyset) (input : List Record)
    (job_id bucket_name : String) (upFail : Nat → Option String)
    (metadata : Except String (String × String × String))
    (fails : Nat → Option String) (src : String → List Line)
    (db : String → List Line) (params : InsParams) (u : String → Bool) : JobResult :=
  let built := _build_datafiles ks input
  let localFiles := built.1.map fun df => df.tempfile
  match _upload_s3 upFail built.1 job_id bucket_name with
  | Except.error e =>
    { outcome := Except.error e, db := db, files := localFiles, events := [] }
  | Except.ok dfs2 =>
    match _get_sts_credentials metadata with
    | Except.error e =>
      { outcome := Except.error e, db := db, files := localFiles, events := [] }
    | Except.ok credentials =>
      let r := _insert_datafiles fails src db dfs2 params u credentials
      { outcome := r.outcome.map fun _ => built.2, db := r.db,
        files := localFiles.filter fun f => !r.removed.contains f,
        events := r.events }

/-- A one-record stream for the staged-pipeline counterexample. -/
def rW : Record := ⟨"t1", ["a"], ["1"]⟩

def upFailW : Nat → Option String := fun _ => some "s3boom"

def metaW : Except String (String × String × String) := Except.ok ("ak", "sk", "tok")

/-- C6 counterexample: with one record and a failing upload, the staged
pipeline raises the staging error but the local temp file written by the
partitioner is still on disk — the claim that a failed staging still cleans
up the local temporary files is false on the code: cleanup lives only in the
loader, which never runs. -/
theorem staged_failure_orphans_files_cex :
    (insert_redshift (fun _ => ksW) [rW] "job1" "infernyx" upFailW metaW
        (fun _ => none) dbW dbW ⟨none⟩ (fun _ => false)).files = [tmpName "t1" 0]
    ∧ (insert_redshift (fun _ => ksW) [rW] "job1" "infernyx" upFailW metaW
        (fun _ => none) dbW dbW ⟨none⟩ (fun _ => false)).outcome
      = Except.error "s3boom" := by
  constructor <;> rfl

/-- C6 (amended): when staging or credential acquisition fails, the error
propagates unchanged, the destination tables are left exactly as before (no
transaction is ever opened: no loader event at all), but the local temp
files of the partitioner are NOT cleaned up — every built file is still on
disk after the call. -/
theorem staged_failure_tables_untouched_files_remain (ks : String → Keyset)
    (input : List Record) (job_id bucket_name : String) (upFail : Nat → Option String)
    (metadata : Except String (String × String × String)) (fails : Nat → Option String)
    (src : String → List Line) (db : String → List Line) (params : InsParams)
    (u : String → Bool) :
    (∀ e, _upload_s3 upFail (_build_datafiles ks input).1 job_id bucket_name
        = Except.error e →
      (insert_redshift ks input job_id bucket_name upFail metadata fails src db params u).outcome
          = Except.error e
      ∧ (insert_redshift ks input job_id bucket_name upFail metadata fails src db params u).db = db
      ∧ (insert_redshift ks input job_id bucket_name upFail metadata fails src db params u).events = []
      ∧ (insert_redshift ks input job_id bucket_name upFail metadata fails src db params u).files
          = (_build_datafiles ks input).1.map (fun df => df.tempfile))
    ∧ (∀ dfs2 e, _upload_s3 upFail (_build_datafiles ks input).1 job_id bucket_name
        = Except.ok dfs2 →
      _get_sts_credentials metadata = Except.error e →
      (insert_redshift ks input job_id bucket_name upFail metadata fails src db params u).outcome
          = Except.error e
      ∧ (insert_redshift ks input job_id bucket_name upFail metadata fails src db params u).db = db
      ∧ (insert_redshift ks input job_id bucket_name upFail metadata fails src db params u).events = []
      ∧ (insert_redshift ks input job_id bucket_name upFail metadata fails src db params u).files
          = (_build_datafiles ks input).1.map (fun df => df.tempfile)) := by
  constructor
  · intro e hup
    simp [insert_redshift, hup]
  · intro dfs2 e hup hcred
    simp [insert_redshift, hup, hcred]

/-- Witness for the amended C6 at the concrete failing-upload input. -/
theorem staged_failure_tables_untouched_files_remain_witness :
    (_upload_s3 upFailW (_build_datafiles (fun _ => ksW) [rW]).1 "job1" "infernyx"
        = Except.error "s3boom")
    ∧ ((insert_redshift (fun _ => ksW) [rW] "job1" "infernyx" upFailW metaW
          (fun _ => none) dbW dbW ⟨none⟩ (fun _ => false)).outcome = Except.error "s3boom"
      ∧ (insert_redshift (fun _ => ksW) [rW] "job1" "infernyx" upFailW metaW
          (fun _ => none) dbW dbW ⟨none⟩ (fun _ => false)).db = dbW
      ∧ (insert_redshift (fun _ => ksW) [rW] "job1" "infernyx" upFailW metaW
          (fun _ => none) dbW dbW ⟨none⟩ (fun _ => false)).events = []
      ∧ (insert_redshift (fun _ => ksW) [rW] "job1" "infernyx" upFailW metaW
          (fun _ => none) dbW dbW ⟨none⟩ (fun _ => false)).files
        = (_build_datafiles (fun _ => ksW) [rW]).1.map (fun df => df.tempfile)) :=
  ⟨rfl, (staged_failure_tables_untouched_files_remain (fun _ => ksW) [rW] "job1" "infernyx"
    upFailW metaW (fun _ => none) dbW dbW ⟨none⟩ (fun _ => false)).1 "s3boom" rfl⟩

/-! ## Denylist reader (get_blacklist_ips) -/

/-- The two Python return shapes of get_blacklist_ips: a set of ips on
success, the empty dict literal on a caught error — two different types,
modelled as two different constructors. -/
inductive BlkResult
  | ipSet (s : Finset String)
  | emptyDict
deriving DecidableEq

/-- get_blacklist_ips from database.py: _connect runs before the try block,
so a connection error propagates; inside the try, a successful query returns
the set of distinct ips, any error returns the empty dict, and the finally
block closes the connection. -/
def get_blacklist_ips (conn : Except String Unit) (rows : Except String (List String)) :
    Except String BlkResult × List DbEvent :=
  match conn with
  | Except.error e => (Except.error e, [])
  | Except.ok _ =>
    match rows with
    | Except.ok rs => (Except.ok (BlkResult.ipSet rs.toFinset), [DbEvent.closeConn])
    | Except.error _ => (Except.ok BlkResult.emptyDict, [DbEvent.closeConn])

/-- C10 counterexample: a connection error happens before the try block and
propagates to the caller (and no close event occurs), so the operation does
not return the empty dict on every connection error — it raises. -/
theorem blacklist_conn_error_raises_cex :
    get_blacklist_ips (Except.error "connfail") (Except.ok [])
      = (Except.error "connfail", []) := rfl

/-- C10 (amended): once the connection is established the reader never
raises: a successful query returns the set of distinct ip values, any
query/read error returns the empty dict literal — a value of a different
shape than any success-path set — and the connection is closed before
returning in both cases; but an error while establishing the connection
itself propagates to the caller with no close event. -/
theorem blacklist_read_behavior (rows : Except String (List String)) (e : String) :
    (∀ rs, rows = Except.ok rs →
      get_blacklist_ips (Except.ok ()) rows
        = (Except.ok (BlkResult.ipSet rs.toFinset), [DbEvent.closeConn]))
    ∧ (∀ e2, rows = Except.error e2 →
      get_blacklist_ips (Except.ok ()) rows
        = (Except.ok BlkResult.emptyDict, [DbEvent.closeConn]))
    ∧ (∀ s : Finset String, BlkResult.emptyDict ≠ BlkResult.ipSet s)
    ∧ get_blacklist_ips (Except.error e) rows = (Except.error e, []) := by
  refine ⟨?_, ?_, ?_, rfl⟩
  · intro rs hr; rw [hr]; rfl
  · intro e2 hr; rw [hr]; rfl
  · intro s h; cases h

/-- Witness for the amended C10 at a concrete successful read. -/
theorem blacklist_read_behavior_witness :
    ((Except.ok ["1.2.3.4"] : Except String (List String)) = Except.ok ["1.2.3.4"])
    ∧ get_blacklist_ips (Except.ok ()) (Except.ok ["1.2.3.4"])
        = (Except.ok (BlkResult.ipSet (["1.2.3.4"] : List String).toFinset),
            [DbEvent.closeConn]) :=
  ⟨rfl, (blacklist_read_behavior (Except.ok ["1.2.3.4"]) "x").1 ["1.2.3.4"] rfl⟩

end Infernyx
